import Mathlib

/-!
Verification development for the AthenaPK hydrodynamic core.

We give a shallow embedding, over the real numbers, of the parts of the code
relevant to the thermal-conduction diffusivity model, the RKL2
super-time-stepping driver, the hyperbolic timestep estimate, the
flux-divergence conservation property, the isotropic fixed-coefficient
conduction fluxes, and the conduction timestep estimate, together with
theorems settling the stated properties.

Sources embedded:
  - src/hydro/diffusion/conduction.cpp  (ThermalDiffusivity::Get,
    EstimateConductionTimestep, ThermalFluxIsoFixed)
  - src/hydro/hydro_driver.cpp          (RKL2Step, AddSTSTasks stage count)
  - src/hydro/hydro.cpp                 (Initialize, EstimateTimestep,
    CalculateFluxes)

Machine floating point is modelled by exact real arithmetic; the C++ `Real`
becomes `ℝ`, `std::min`/`fmin` become `min`, `std::sqrt` becomes `Real.sqrt`
and `std::pow` with real exponent becomes `Real.rpow`.
-/

namespace AthenaPK

noncomputable section

/-- Modelled from the spec: the small positive guard constant `TINY_NUMBER`
(declared in main.hpp, which is not among the given sources); the spec
describes it as a floor "to avoid division by zero".  The conventional
Athena value 1e-20 is used. -/
def TINY_NUMBER : ℝ := 1e-20

/-- Conduction model variant (spec §3 "Diffusivity descriptor": off /
isotropic / anisotropic).  The enum itself is declared in diffusion.hpp
(not among the given sources); the variants are those used by
conduction.cpp and listed in the spec. -/
inductive Conduction where
  | off
  | isotropic
  | anisotropic
deriving DecidableEq

/-- Conduction coefficient variant (spec §3: fixed / temperature-dependent
"Spitzer"), plus the `off`/unset value implied by the final `else` branch of
`ThermalDiffusivity::Get`.  Declared in diffusion.hpp (not among the given
sources). -/
inductive ConductionCoeff where
  | off
  | fixed
  | spitzer
deriving DecidableEq

/-- The diffusivity descriptor `ThermalDiffusivity` (conduction.cpp):
conduction model, coefficient variant, coefficient value `coeff_` and the
unit conversion constant `mbar_over_kb_`. -/
structure ThermalDiffusivity where
  conduction_ : Conduction
  conduction_coeff_type_ : ConductionCoeff
  coeff_ : ℝ
  mbar_over_kb_ : ℝ

/-- `ThermalDiffusivity::Get(pres, rho, gradTmag)` (conduction.cpp lines
24-45), embedded branch by branch: fixed returns `coeff_`; spitzer returns
the minimum of the unsaturated Spitzer diffusivity and the saturated value
`0.34 (p/ρ)^{3/2} / (|∇T| + TINY_NUMBER)`; anything else returns `0.0`. -/
def ThermalDiffusivity.Get (td : ThermalDiffusivity) (pres rho gradTmag : ℝ) : ℝ :=
  if td.conduction_coeff_type_ = ConductionCoeff.fixed then
    td.coeff_
  else if td.conduction_coeff_type_ = ConductionCoeff.spitzer then
    let T := td.mbar_over_kb_ * pres / rho
    let kappa := td.coeff_ * T ^ ((5 : ℝ) / 2)
    let chi_spitzer := kappa * td.mbar_over_kb_ / rho
    let chi_sat := 0.34 * (pres / rho) ^ ((3 : ℝ) / 2) / (gradTmag + TINY_NUMBER)
    min chi_spitzer chi_sat
  else
    0.0

/-- The unsaturated Spitzer diffusivity as computed by the `spitzer` branch
of `ThermalDiffusivity::Get`: `χ = κ(T)·mbar_over_kb/ρ` with
`κ(T) = coeff·T^{5/2}` and `T = mbar_over_kb·p/ρ`. -/
def chiSpitzerUnsat (td : ThermalDiffusivity) (pres rho : ℝ) : ℝ :=
  td.coeff_ * (td.mbar_over_kb_ * pres / rho) ^ ((5 : ℝ) / 2) * td.mbar_over_kb_ / rho

/-- The saturation limit exactly as worded by the spec and claim C1:
`0.34·(p/ρ)^{3/2}/|∇T|` (no guard term in the denominator). -/
def satLimitSpec (pres rho gradTmag : ℝ) : ℝ :=
  0.34 * (pres / rho) ^ ((3 : ℝ) / 2) / gradTmag

/-- C++ `static_cast<int>` applied to a real value: truncation toward zero. -/
def cppTrunc (x : ℝ) : ℤ :=
  if 0 ≤ x then Int.floor x else Int.ceil x

/-- The "ensure odd number of stages" step of AddSTSTasks (hydro_driver.cpp
line 210): `if (s_rkl % 2 == 0) s_rkl += 1`. -/
def oddUp (s : ℤ) : ℤ :=
  if s % 2 = 0 then s + 1 else s

/-- The RKL2 stage count computed by `AddSTSTasks` (hydro_driver.cpp lines
205-210): `s_rkl = static_cast<int>(0.5*(sqrt(9.0 + 16.0*tau/mindt_diff) - 1.0)) + 1`,
then rounded up to the next odd integer. -/
def s_rkl (tau mindt_diff : ℝ) : ℤ :=
  oddUp (cppTrunc (0.5 * (Real.sqrt (9 + 16 * tau / mindt_diff) - 1)) + 1)

/-- Stated from the claim C2 wording only, for refinement comparison with
`s_rkl`: `ceil(0.5*(sqrt(9 + 16*ratio) - 1)) + 1` rounded up to the next odd
integer, with `ratio = 2*tau/dt_diff`. -/
def s_rkl_claimed (tau mindt_diff : ℝ) : ℤ :=
  oddUp (Int.ceil (0.5 * (Real.sqrt (9 + 16 * (2 * tau / mindt_diff)) - 1)) + 1)

/-- The adiabatic EOS record constructed by `Hydro::Initialize`
(hydro.cpp line 48): `AdiabaticHydroEOS eos(pfloor, dfloor, gamma)`. -/
structure AdiabaticHydroEOS where
  pfloor : ℝ
  dfloor : ℝ
  gamma : ℝ

/-- Observable outcome of the EOS-selection branch of `Hydro::Initialize`
(hydro.cpp lines 43-53): which parameters the returned package holds and
whether the "Whoops, EOS undefined" diagnostic was printed.  The C++
function returns the package normally on every path (there is no abort). -/
structure HydroPackage where
  cfl : ℝ
  eosParam : Option AdiabaticHydroEOS
  printedWhoopsEOSUndefined : Bool

/-- The configuration-dependent part of `Hydro::Initialize` (hydro.cpp lines
40-53): reads the cfl number, then branches on the EOS selector string.  For
"adiabatic" it adds the EOS parameter; for any other string it prints
"Whoops, EOS undefined" (with a `TODO(pgrete) FAIL` comment) and falls
through, still returning the package. -/
def Initialize (eos_str : String) (cfl gamma dfloor pfloor : ℝ) : HydroPackage :=
  if eos_str = "adiabatic" then
    { cfl := cfl, eosParam := some ⟨pfloor, dfloor, gamma⟩,
      printedWhoopsEOSUndefined := false }
  else
    { cfl := cfl, eosParam := none, printedWhoopsEOSUndefined := true }

/-- A cell's primitive state `w[NHYDRO]` as loaded in `EstimateTimestep`
(hydro.cpp lines 121-126): density, three velocity components, pressure. -/
structure PrimCell where
  rho : ℝ
  vx : ℝ
  vy : ℝ
  vz : ℝ
  pres : ℝ

/-- One interior cell as seen by `EstimateTimestep`: its primitive state and
the cell widths `coords.Dx(X1DIR/X2DIR/X3DIR, k, j, i)`. -/
structure TSCell where
  w : PrimCell
  dx1 : ℝ
  dx2 : ℝ
  dx3 : ℝ

/-- `std::numeric_limits<Real>::max()`, the sentinel that seeds the minimum
reductions (largest finite double). -/
def realMax : ℝ := 1.7976931348623157e308

/-- The per-cell body of the `EstimateTimestep` reduction (hydro.cpp lines
120-137): fold the cell's per-dimension signal-crossing times
`Dx_d / (|v_d| + cs)` into the running minimum, guarded by the
`nx2`/`nx3` dimension flags.  `cs` abstracts `eos.SoundSpeed(w)`. -/
def hydroCellDtChain (nx2 nx3 : Bool) (cs : PrimCell → ℝ) (c : TSCell)
    (min_dt : ℝ) : ℝ :=
  let m1 := min min_dt (c.dx1 / (|c.w.vx| + cs c.w))
  let m2 := if nx2 then min m1 (c.dx2 / (|c.w.vy| + cs c.w)) else m1
  if nx3 then min m2 (c.dx3 / (|c.w.vz| + cs c.w)) else m2

/-- A single cell's CFL-free timestep bound: the minimum over the active
dimensions of `Dx_d / (|v_d| + cs)`. -/
def hydroCellMinDt (nx2 nx3 : Bool) (cs : PrimCell → ℝ) (c : TSCell) : ℝ :=
  let d1 := c.dx1 / (|c.w.vx| + cs c.w)
  let d2 := if nx2 then min d1 (c.dx2 / (|c.w.vy| + cs c.w)) else d1
  if nx3 then min d2 (c.dx3 / (|c.w.vz| + cs c.w)) else d2

/-- `Hydro::EstimateTimestep` (hydro.cpp lines 98-140): reduce the per-cell
per-dimension crossing times to a minimum, seeded with
`std::numeric_limits<Real>::max()`, and return `cfl` times the result.  The
block's interior cells are given as a list. -/
def EstimateTimestep (cfl : ℝ) (nx2 nx3 : Bool) (cs : PrimCell → ℝ)
    (cells : List TSCell) : ℝ :=
  cfl * cells.foldl (fun m c => hydroCellDtChain nx2 nx3 cs c m) realMax

/-- Inclusive index range `[s, e]` (Parthenon `IndexRange`). -/
structure IndexRange where
  s : ℤ
  e : ℤ

/-- The per-direction flux array filled by `CalculateFluxes` (hydro.cpp
lines 170-183): the Riemann solver writes, for each interface `i`, the flux
of the reconstructed pair `(wl i, wr i)` into the single array
`x1flux`; `riemann` abstracts the per-interface solver output. -/
def x1flux (riemann : ℝ → ℝ → ℝ) (wl wr : ℤ → ℝ) : ℤ → ℝ :=
  fun i => riemann (wl i) (wr i)

/-- Modelled from the spec: `parthenon::Update::UpdateWithFluxDivergence`
(the flux-divergence update invoked at hydro_driver.cpp lines 513-517 lives
in the external Parthenon collaborator).  Spec §4.4/§8: the driver "takes
their divergence to update conserved state", in conservation form on a
uniform 1D grid: `u'_i = gam0·u0_i + gam1·u1_i + beta_dt·(F_i - F_{i+1})/dx`
for interior cells. -/
def updateWithFluxDivergence (ib : IndexRange) (gam0 gam1 beta_dt dx : ℝ)
    (u0 u1 F : ℤ → ℝ) : ℤ → ℝ :=
  fun i =>
    if ib.s ≤ i ∧ i ≤ ib.e then
      gam0 * u0 i + gam1 * u1 i + beta_dt * ((F i - F (i + 1)) / dx)
    else u0 i

/-- The amount of conserved quantity the flux-divergence update moves
through interface `m` into cell `c` during one stage: interface `m` injects
`beta_dt·F m/dx` into cell `m` and extracts the same amount from cell
`m - 1`; it does not touch any other cell. -/
def interfaceFluxContrib (beta_dt dx : ℝ) (F : ℤ → ℝ) (m c : ℤ) : ℝ :=
  if c = m then beta_dt * F m / dx
  else if c = m - 1 then -(beta_dt * F m / dx)
  else 0

/-- Conserved-variable index (`IDN`, momenta, `IEN`), as used for the flux
arrays. -/
inductive Var where
  | IDN
  | IM1
  | IM2
  | IM3
  | IEN
deriving DecidableEq

/-- Spatial direction (`X1DIR`, `X2DIR`, `X3DIR`). -/
inductive Dir where
  | X1
  | X2
  | X3
deriving DecidableEq

/-- Cell index `(k, j, i)`. -/
abbrev Idx3 := ℤ × ℤ × ℤ

/-- `ThermalFluxIsoFixed` (conduction.cpp lines 180-249): the isotropic
fixed-coefficient fast path.  Three sweeps (X1 always, X2 when `ndim ≥ 2`,
X3 when `ndim ≥ 3`) subtract `coeff·⟨ρ⟩·dT/dx_d` from the energy flux of
the direction's flux array over the direction's interface range, where
`coeff = thermal_diff.Get(0,0,0)`, `T = p/ρ` per adjacent cell and `⟨ρ⟩` is
the two-cell density mean.  All other entries are untouched.  The grid is
uniform Cartesian with widths `dx d`. -/
def ThermalFluxIsoFixed (td : ThermalDiffusivity) (ndim : ℕ) (dx : Dir → ℝ)
    (ib jb kb : IndexRange) (rho pres : Idx3 → ℝ)
    (flux : Dir → Var → Idx3 → ℝ) : Dir → Var → Idx3 → ℝ :=
  fun d v x =>
    let coeff := td.Get 0 0 0
    match x with
    | (k, j, i) =>
      if d = Dir.X1 ∧ v = Var.IEN ∧ kb.s ≤ k ∧ k ≤ kb.e ∧ jb.s ≤ j ∧ j ≤ jb.e ∧
          ib.s ≤ i ∧ i ≤ ib.e + 1 then
        flux d v x - coeff * (0.5 * (rho (k, j, i) + rho (k, j, i - 1))) *
          ((pres (k, j, i) / rho (k, j, i) - pres (k, j, i - 1) / rho (k, j, i - 1)) /
            dx Dir.X1)
      else if 2 ≤ ndim ∧ d = Dir.X2 ∧ v = Var.IEN ∧ kb.s ≤ k ∧ k ≤ kb.e ∧
          jb.s ≤ j ∧ j ≤ jb.e + 1 ∧ ib.s ≤ i ∧ i ≤ ib.e then
        flux d v x - coeff * (0.5 * (rho (k, j, i) + rho (k, j - 1, i))) *
          ((pres (k, j, i) / rho (k, j, i) - pres (k, j - 1, i) / rho (k, j - 1, i)) /
            dx Dir.X2)
      else if 3 ≤ ndim ∧ d = Dir.X3 ∧ v = Var.IEN ∧ kb.s ≤ k ∧ k ≤ kb.e + 1 ∧
          jb.s ≤ j ∧ j ≤ jb.e ∧ ib.s ≤ i ∧ i ≤ ib.e then
        flux d v x - coeff * (0.5 * (rho (k, j, i) + rho (k - 1, j, i))) *
          ((pres (k, j, i) / rho (k, j, i) - pres (k - 1, j, i) / rho (k - 1, j, i)) /
            dx Dir.X3)
      else flux d v x

/-- The four conserved-state registers used during super-time-stepping
(spec §3 "Register sets"; hydro_driver.cpp `Y0`/`Yjm1`/`Yjm2`/`MY0`). -/
inductive RegName where
  | Y0
  | Yjm1
  | Yjm2
  | MY0
deriving DecidableEq

/-- RKL2 coefficient `w1 = 4/(s² + s - 2)` (hydro_driver.cpp line 141,
Meyer+2012 eq. 16). -/
def rklW1 (s : ℝ) : ℝ := 4 / (s * s + s - 2)

/-- RKL2 coefficient `b_j` (hydro_driver.cpp lines 143-145). -/
def rklBj (jint : ℤ) : ℝ :=
  if jint < 2 then 1 / 3
  else ((jint : ℝ) * (jint : ℝ) + (jint : ℝ) - 2) / (2 * (jint : ℝ) * ((jint : ℝ) + 1))

/-- RKL2 coefficient `b_{j-1}` (hydro_driver.cpp lines 146-148). -/
def rklBjm1 (jint : ℤ) : ℝ :=
  if jint < 3 then 1 / 3
  else (((jint : ℝ) - 1) * ((jint : ℝ) - 1) + ((jint : ℝ) - 1) - 2) /
    (2 * ((jint : ℝ) - 1) * (((jint : ℝ) - 1) + 1))

/-- RKL2 coefficient `b_{j-2}` (hydro_driver.cpp lines 149-151). -/
def rklBjm2 (jint : ℤ) : ℝ :=
  if jint < 4 then 1 / 3
  else (((jint : ℝ) - 2) * ((jint : ℝ) - 2) + ((jint : ℝ) - 2) - 2) /
    (2 * ((jint : ℝ) - 2) * (((jint : ℝ) - 2) + 1))

/-- RKL2 coefficient `mu_j` (hydro_driver.cpp line 162; zero for the first
stage). -/
def rklMu (jint : ℤ) : ℝ :=
  if jint = 1 then 0
  else (2 * (jint : ℝ) - 1) / (jint : ℝ) * rklBj jint / rklBjm1 jint

/-- RKL2 coefficient `nu_j` (hydro_driver.cpp line 163; zero for the first
stage). -/
def rklNu (jint : ℤ) : ℝ :=
  if jint = 1 then 0
  else -((jint : ℝ) - 1) / (jint : ℝ) * rklBj jint / rklBjm2 jint

/-- RKL2 coefficient `mu_tilde_j` (hydro_driver.cpp line 164; zero for the
first stage). -/
def rklMuTilde (jint : ℤ) (s : ℝ) : ℝ :=
  if jint = 1 then 0 else rklMu jint * rklW1 s

/-- RKL2 coefficient `gamma_tilde_j` (hydro_driver.cpp lines 160 and 165:
`b_1·w1` for the first stage, `-(1 - b_{j-1})·mu_tilde_j` afterwards). -/
def rklGammaTilde (jint : ℤ) (s : ℝ) : ℝ :=
  if jint = 1 then rklBj jint * rklW1 s
  else -(1 - rklBjm1 jint) * rklMuTilde jint s

/-- Modelled from the spec: `parthenon::Update::FluxDivHelper` (called at
hydro_driver.cpp line 184, implemented in the external Parthenon
collaborator).  Conservation-form flux divergence of a register's X1 flux
array on a uniform 1D grid: `-(F_{i+1} - F_i)/dx`. -/
def fluxDivHelper (F : ℤ → ℝ) (dx : ℝ) (i : ℤ) : ℝ :=
  -((F (i + 1) - F i) / dx)

/-- `RKL2Step` (hydro_driver.cpp lines 131-195) on a uniform 1D grid.  The
in-place parallel kernel is race-free (each cell writes only its own
`Yjm1`/`Yjm2` entries and reads only its own data entries plus `Yjm1`'s flux
array, which is never written), so it is embedded as the pointwise map: on
interior cells, `Yjm2` receives the old `Yjm1` value and `Yjm1` receives
`mu_j·Yjm1 + nu_j·Yjm2 + (1 - mu_j - nu_j)·Y0 + mu_tilde_j·tau·MYjm1 +
gamma_tilde_j·tau·MY0`; every other entry keeps its value.  `data` holds the
conserved registers, `flux` their flux arrays. -/
def RKL2Step (jint : ℤ) (s tau dx : ℝ) (ib : IndexRange)
    (data : RegName → Var → ℤ → ℝ) (flux : RegName → Var → ℤ → ℝ) :
    RegName → Var → ℤ → ℝ :=
  fun r v i =>
    if ib.s ≤ i ∧ i ≤ ib.e then
      match r with
      | RegName.Yjm2 => data RegName.Yjm1 v i
      | RegName.Yjm1 =>
          rklMu jint * data RegName.Yjm1 v i + rklNu jint * data RegName.Yjm2 v i +
            (1 - rklMu jint - rklNu jint) * data RegName.Y0 v i +
            rklMuTilde jint s * tau * fluxDivHelper (flux RegName.Yjm1 v) dx i +
            rklGammaTilde jint s * tau * data RegName.MY0 v i
      | r' => data r' v i
    else data r v i

/-- Centered temperature gradient `dTdx` in the general conduction timestep
estimate (conduction.cpp lines 107-110): `0.5·(T_{i+1} - T_{i-1})/dx1v`
with `T = p/ρ`. -/
def condDTdx (pres rho : Idx3 → ℝ) (dx1 : ℝ) (k j i : ℤ) : ℝ :=
  0.5 * (pres (k, j, i + 1) / rho (k, j, i + 1) -
    pres (k, j, i - 1) / rho (k, j, i - 1)) / dx1

/-- Centered temperature gradient `dTdy` (conduction.cpp lines 112-117),
zero unless `ndim ≥ 2`. -/
def condDTdy (ndim : ℕ) (pres rho : Idx3 → ℝ) (dx2 : ℝ) (k j i : ℤ) : ℝ :=
  if 2 ≤ ndim then
    0.5 * (pres (k, j + 1, i) / rho (k, j + 1, i) -
      pres (k, j - 1, i) / rho (k, j - 1, i)) / dx2
  else 0

/-- Centered temperature gradient `dTdz` (conduction.cpp lines 119-124),
zero unless `ndim ≥ 3`. -/
def condDTdz (ndim : ℕ) (pres rho : Idx3 → ℝ) (dx3 : ℝ) (k j i : ℤ) : ℝ :=
  if 3 ≤ ndim then
    0.5 * (pres (k + 1, j, i) / rho (k + 1, j, i) -
      pres (k - 1, j, i) / rho (k - 1, j, i)) / dx3
  else 0

/-- Magnitude of a three-component vector, `sqrt(x² + y² + z²)`, as used for
`gradTmag` (conduction.cpp line 125) and `Bmag` (line 149). -/
def vecMag (x y z : ℝ) : ℝ :=
  Real.sqrt (x ^ 2 + y ^ 2 + z ^ 2)

/-- The field-alignment factor `costheta` of the anisotropic conduction
timestep estimate (conduction.cpp lines 154-155):
`|B·∇T| / (|B|·|∇T|)`. -/
def condCosTheta (bX bY bZ tX tY tZ : ℝ) : ℝ :=
  |bX * tX + bY * tY + bZ * tZ| / (vecMag bX bY bZ * vecMag tX tY tZ)

/-- One per-dimension anisotropic timestep contribution of the general
conduction timestep estimate (conduction.cpp lines 157-169):
`Dx_d² / (κ·|B_d|/|B|·costheta + TINY_NUMBER)`. -/
def anisoCondDt (dxd kappa bd bmag costheta : ℝ) : ℝ :=
  dxd ^ 2 / (kappa * |bd| / bmag * costheta + TINY_NUMBER)

/-- The general-branch per-cell body of `EstimateConductionTimestep`
(conduction.cpp lines 101-170), folding one cell into the running minimum
`min_dt`: a cell with zero temperature-gradient magnitude returns early;
the isotropic model reduces `Dx_d²/κ`; the anisotropic path returns early
on zero field magnitude and otherwise reduces the field-projected
contributions. -/
def estimateCondCellGeneral (td : ThermalDiffusivity) (ndim : ℕ)
    (dx : Dir → ℝ) (pres rho bfX bfY bfZ : Idx3 → ℝ) (k j i : ℤ)
    (min_dt : ℝ) : ℝ :=
  let tX := condDTdx pres rho (dx Dir.X1) k j i
  let tY := condDTdy ndim pres rho (dx Dir.X2) k j i
  let tZ := condDTdz ndim pres rho (dx Dir.X3) k j i
  let gradTmag := vecMag tX tY tZ
  if gradTmag = 0 then min_dt
  else
    let kappa := td.Get (pres (k, j, i)) (rho (k, j, i)) gradTmag
    if td.conduction_ = Conduction.isotropic then
      let m1 := min min_dt (dx Dir.X1 ^ 2 / kappa)
      let m2 := if 2 ≤ ndim then min m1 (dx Dir.X2 ^ 2 / kappa) else m1
      if 3 ≤ ndim then min m2 (dx Dir.X3 ^ 2 / kappa) else m2
    else
      let bX := bfX (k, j, i)
      let bY := bfY (k, j, i)
      let bZ := bfZ (k, j, i)
      let bmag := vecMag bX bY bZ
      if bmag = 0 then min_dt
      else
        let costheta := condCosTheta bX bY bZ tX tY tZ
        let m1 := min min_dt (anisoCondDt (dx Dir.X1) kappa bX bmag costheta)
        let m2 := if 2 ≤ ndim then
            min m1 (anisoCondDt (dx Dir.X2) kappa bY bmag costheta)
          else m1
        if 3 ≤ ndim then min m2 (anisoCondDt (dx Dir.X3) kappa bZ bmag costheta)
        else m2

end

/-- C10: `ThermalDiffusivity::Get` is total over the coefficient-type tag:
when the conduction coefficient type is neither `fixed` nor `spitzer` it
returns `0.0` for every input, silently, rather than aborting or
signalling an error. -/
theorem get_unknown_coeff_type_returns_zero (td : ThermalDiffusivity)
    (pres rho gradTmag : ℝ)
    (h1 : td.conduction_coeff_type_ ≠ ConductionCoeff.fixed)
    (h2 : td.conduction_coeff_type_ ≠ ConductionCoeff.spitzer) :
    td.Get pres rho gradTmag = 0 := by
  simp only [ThermalDiffusivity.Get, h1, h2, if_false, reduceIte]
  norm_num

/-- Witness for C10 at the `off` coefficient type and input `(1, 1, 1)`. -/
theorem get_unknown_coeff_type_returns_zero_witness :
    (⟨Conduction.off, ConductionCoeff.off, 1, 1⟩ :
      ThermalDiffusivity).conduction_coeff_type_ ≠ ConductionCoeff.fixed ∧
    (⟨Conduction.off, ConductionCoeff.off, 1, 1⟩ :
      ThermalDiffusivity).conduction_coeff_type_ ≠ ConductionCoeff.spitzer ∧
    (⟨Conduction.off, ConductionCoeff.off, 1, 1⟩ : ThermalDiffusivity).Get 1 1 1 = 0 :=
  ⟨by decide, by decide,
    get_unknown_coeff_type_returns_zero _ 1 1 1 (by decide) (by decide)⟩

/-- C3: against the claim, an unrecognized EOS selector is not fatal in the
code: `Hydro::Initialize` prints "Whoops, EOS undefined" (the adjacent
`TODO(pgrete) FAIL` comment records the intended abort) and returns the
package normally, with no `eos` parameter added, so the run continues
without an EOS. -/
theorem initialize_unknown_eos_continues (cfl gamma dfloor pfloor : ℝ) :
    (Initialize "isothermal" cfl gamma dfloor pfloor).eosParam = none ∧
    (Initialize "isothermal" cfl gamma dfloor pfloor).printedWhoopsEOSUndefined = true := by
  constructor <;> rfl

/-- Counterexample to C1 as stated: with `coeff_ = mbar_over_kb_ = 1` and
input `(p, ρ, |∇T|) = (1, 1, 1)`, the code returns
`min(1, 0.34/(1 + TINY_NUMBER))`, which differs from the claimed
`min(unsaturated, 0.34·(p/ρ)^{3/2}/|∇T|) = 0.34` because the code guards
the saturation denominator with `+ TINY_NUMBER`. -/
theorem get_spitzer_not_exact_spec_min :
    (⟨Conduction.isotropic, ConductionCoeff.spitzer, 1, 1⟩ :
        ThermalDiffusivity).Get 1 1 1 ≠
      min (chiSpitzerUnsat ⟨Conduction.isotropic, ConductionCoeff.spitzer, 1, 1⟩ 1 1)
        (satLimitSpec 1 1 1) := by
  have h1 : ((1 : ℝ) * 1 / 1) = 1 := by norm_num
  have e1 : ((1 : ℝ)) ^ ((5 : ℝ) / 2) = 1 := Real.one_rpow _
  have e2 : ((1 : ℝ)) ^ ((3 : ℝ) / 2) = 1 := Real.one_rpow _
  simp only [ThermalDiffusivity.Get, chiSpitzerUnsat, satLimitSpec, TINY_NUMBER]
  norm_num [e1, e2]
  rw [if_neg (show ¬(ConductionCoeff.spitzer = ConductionCoeff.fixed) by decide)]
  norm_num

/-- C1 (amended): for the Spitzer coefficient model the code returns the
minimum of the unsaturated Spitzer diffusivity and the guarded saturation
value `0.34·(p/ρ)^{3/2}/(|∇T| + TINY_NUMBER)`; in particular, for positive
density and gradient magnitude and nonnegative pressure, the returned
diffusivity never exceeds the spec's saturation limit
`0.34·(p/ρ)^{3/2}/|∇T|`. -/
theorem get_spitzer_saturated_min (td : ThermalDiffusivity) (pres rho gradTmag : ℝ)
    (htype : td.conduction_coeff_type_ = ConductionCoeff.spitzer)
    (hrho : 0 < rho) (hp : 0 ≤ pres) (hg : 0 < gradTmag) :
    td.Get pres rho gradTmag =
      min (chiSpitzerUnsat td pres rho)
        (0.34 * (pres / rho) ^ ((3 : ℝ) / 2) / (gradTmag + TINY_NUMBER)) ∧
    td.Get pres rho gradTmag ≤ satLimitSpec pres rho gradTmag := by
  have hfix : td.conduction_coeff_type_ ≠ ConductionCoeff.fixed := by
    rw [htype]; decide
  have hGet : td.Get pres rho gradTmag =
      min (chiSpitzerUnsat td pres rho)
        (0.34 * (pres / rho) ^ ((3 : ℝ) / 2) / (gradTmag + TINY_NUMBER)) := by
    simp only [ThermalDiffusivity.Get, chiSpitzerUnsat, hfix, htype, if_false, if_true,
      reduceIte]
    rw [if_neg (show ¬(ConductionCoeff.spitzer = ConductionCoeff.fixed) by decide)]
  refine ⟨hGet, ?_⟩
  have hx : (0 : ℝ) ≤ pres / rho := div_nonneg hp hrho.le
  have hpow : (0 : ℝ) ≤ 0.34 * (pres / rho) ^ ((3 : ℝ) / 2) :=
    mul_nonneg (by norm_num) (Real.rpow_nonneg hx _)
  have htiny : (0 : ℝ) < TINY_NUMBER := by norm_num [TINY_NUMBER]
  have hle : 0.34 * (pres / rho) ^ ((3 : ℝ) / 2) / (gradTmag + TINY_NUMBER) ≤
      satLimitSpec pres rho gradTmag := by
    unfold satLimitSpec
    gcongr
    linarith
  calc td.Get pres rho gradTmag ≤
      0.34 * (pres / rho) ^ ((3 : ℝ) / 2) / (gradTmag + TINY_NUMBER) := by
        rw [hGet]; exact min_le_right _ _
    _ ≤ satLimitSpec pres rho gradTmag := hle

/-- Witness for C1 (amended) at `coeff_ = mbar_over_kb_ = 1`,
`(p, ρ, |∇T|) = (1, 1, 1)`. -/
theorem get_spitzer_saturated_min_witness :
    ((⟨Conduction.isotropic, ConductionCoeff.spitzer, 1, 1⟩ :
        ThermalDiffusivity).conduction_coeff_type_ = ConductionCoeff.spitzer ∧
      (0 : ℝ) < 1 ∧ (0 : ℝ) ≤ 1) ∧
    (⟨Conduction.isotropic, ConductionCoeff.spitzer, 1, 1⟩ :
        ThermalDiffusivity).Get 1 1 1 ≤ satLimitSpec 1 1 1 :=
  ⟨⟨rfl, by norm_num, by norm_num⟩,
    (get_spitzer_saturated_min _ 1 1 1 rfl (by norm_num) (by norm_num) (by norm_num)).2⟩

/-- Counterexample to C2 as stated: at `tau = mindt_diff = 1` the code
computes `trunc(0.5·(√(9 + 16·1) - 1)) + 1 = 3` stages (already odd), while
the claim's formula `ceil(0.5·(√(9 + 16·ratio) - 1)) + 1` with
`ratio = 2·tau/dt_diff = 2` gives `4`, rounded up to odd `5`. -/
theorem s_rkl_ne_claimed_formula : s_rkl 1 1 ≠ s_rkl_claimed 1 1 := by
  have h25 : Real.sqrt (9 + 16 * (1 : ℝ) / 1) = 5 := by
    rw [show (9 + 16 * (1 : ℝ) / 1) = 5 ^ 2 by norm_num]
    exact Real.sqrt_sq (by norm_num)
  have hcode : s_rkl 1 1 = 3 := by
    rw [s_rkl, h25]
    have : cppTrunc (0.5 * (5 - 1)) = 2 := by
      rw [cppTrunc, if_pos (by norm_num : (0 : ℝ) ≤ 0.5 * (5 - 1))]
      rw [show (0.5 * ((5 : ℝ) - 1)) = ((2 : ℤ) : ℝ) by norm_num]
      exact Int.floor_intCast 2
    rw [this]
    decide
  have h41lo : (5 : ℝ) < Real.sqrt (9 + 16 * (2 * 1 / 1)) := by
    rw [Real.lt_sqrt (by norm_num)]
    norm_num
  have h41hi : Real.sqrt (9 + 16 * (2 * 1 / 1)) < 7 := by
    rw [Real.sqrt_lt' (by norm_num)]
    norm_num
  have hclaim : s_rkl_claimed 1 1 = 5 := by
    rw [s_rkl_claimed]
    have hceil : Int.ceil (0.5 * (Real.sqrt (9 + 16 * (2 * (1 : ℝ) / 1)) - 1)) = 3 := by
      rw [Int.ceil_eq_iff]
      constructor
      · push_cast
        nlinarith [h41lo]
      · push_cast
        nlinarith [h41hi]
    rw [hceil]
    decide
  rw [hcode, hclaim]
  decide

/-- C2 (amended): with `tau > 0` and `dt_diff > 0`, the number of RKL2
sub-stages computed in `AddSTSTasks` is
`trunc(0.5·(√(9 + 16·tau/dt_diff) - 1)) + 1` rounded up to the next odd
integer (the square-root argument uses `16·tau/dt_diff = 9 + 8·ratio` with
`ratio = 2·tau/dt_diff`, and the base value is truncated, not rounded up);
the count is always odd and at least 3, and whenever `ratio ≤ 1` the
minimum stage count 3 is used. -/
theorem s_rkl_odd_min_three (tau mindt_diff : ℝ) (htau : 0 < tau)
    (hd : 0 < mindt_diff) :
    s_rkl tau mindt_diff % 2 = 1 ∧ 3 ≤ s_rkl tau mindt_diff ∧
      (2 * tau / mindt_diff ≤ 1 → s_rkl tau mindt_diff = 3) := by
  have hx : 0 < 16 * tau / mindt_diff := by positivity
  have hsq3 : (3 : ℝ) ≤ Real.sqrt (9 + 16 * tau / mindt_diff) := by
    rw [Real.le_sqrt (by norm_num) (by linarith)]
    linarith
  have hy1 : (1 : ℝ) ≤ 0.5 * (Real.sqrt (9 + 16 * tau / mindt_diff) - 1) := by
    linarith
  have htr : cppTrunc (0.5 * (Real.sqrt (9 + 16 * tau / mindt_diff) - 1)) =
      Int.floor (0.5 * (Real.sqrt (9 + 16 * tau / mindt_diff) - 1)) := by
    rw [cppTrunc, if_pos (by linarith : (0 : ℝ) ≤ _)]
  have hfl1 : 1 ≤ Int.floor (0.5 * (Real.sqrt (9 + 16 * tau / mindt_diff) - 1)) := by
    rw [Int.le_floor]
    exact_mod_cast hy1
  refine ⟨?_, ?_, ?_⟩
  · rw [s_rkl, oddUp]
    split
    · omega
    · next h => omega
  · rw [s_rkl, htr, oddUp]
    split
    · omega
    · next h => omega
  · intro hr
    have hxle : 16 * tau / mindt_diff ≤ 8 := by
      have : 16 * tau / mindt_diff = 8 * (2 * tau / mindt_diff) := by ring
      rw [this]
      linarith
    have hsqlt : Real.sqrt (9 + 16 * tau / mindt_diff) < 5 := by
      rw [Real.sqrt_lt' (by norm_num)]
      linarith
    have hylt : 0.5 * (Real.sqrt (9 + 16 * tau / mindt_diff) - 1) < 2 := by
      linarith
    have hfl2 : Int.floor (0.5 * (Real.sqrt (9 + 16 * tau / mindt_diff) - 1)) < 2 := by
      rw [Int.floor_lt]
      exact_mod_cast hylt
    have hfl : Int.floor (0.5 * (Real.sqrt (9 + 16 * tau / mindt_diff) - 1)) = 1 := by
      omega
    rw [s_rkl, htr, hfl, oddUp]
    norm_num

/-- Witness for C2 (amended) at `tau = 1/4`, `mindt_diff = 1`, where the
ratio is `1/2 ≤ 1` and exactly 3 stages are taken. -/
theorem s_rkl_odd_min_three_witness :
    (0 : ℝ) < 1 / 4 ∧ (0 : ℝ) < 1 ∧ 2 * (1 / 4 : ℝ) / 1 ≤ 1 ∧ s_rkl (1 / 4) 1 = 3 :=
  ⟨by norm_num, by norm_num, by norm_num,
    (s_rkl_odd_min_three (1 / 4) 1 (by norm_num) (by norm_num)).2.2 (by norm_num)⟩

/-- The reduction body of `EstimateTimestep` folds the running minimum with
the cell's own minimum crossing time. -/
theorem hydroCellDtChain_eq_min (nx2 nx3 : Bool) (cs : PrimCell → ℝ) (c : TSCell)
    (m : ℝ) :
    hydroCellDtChain nx2 nx3 cs c m = min m (hydroCellMinDt nx2 nx3 cs c) := by
  cases nx2 <;> cases nx3 <;>
    simp [hydroCellDtChain, hydroCellMinDt, min_assoc]

/-- A left fold of binary minima is bounded by its seed and by every folded
value. -/
theorem foldl_min_le {α : Type} (f : α → ℝ) (l : List α) (m : ℝ) :
    l.foldl (fun a c => min a (f c)) m ≤ m ∧
      ∀ c ∈ l, l.foldl (fun a c => min a (f c)) m ≤ f c := by
  induction l generalizing m with
  | nil => exact ⟨le_refl m, by simp⟩
  | cons c t ih =>
    refine ⟨?_, ?_⟩
    · calc t.foldl (fun a c => min a (f c)) (min m (f c)) ≤ min m (f c) :=
        (ih (min m (f c))).1
      _ ≤ m := min_le_left _ _
    · intro d hd
      rcases List.mem_cons.mp hd with h | h
      · subst h
        calc t.foldl (fun a c => min a (f c)) (min m (f d)) ≤ min m (f d) :=
          (ih (min m (f d))).1
        _ ≤ f d := min_le_right _ _
      · exact (ih (min m (f c))).2 d h

/-- A left fold of binary minima equals its seed or one of the folded
values. -/
theorem foldl_min_choice {α : Type} (f : α → ℝ) (l : List α) (m : ℝ) :
    l.foldl (fun a c => min a (f c)) m = m ∨
      ∃ c ∈ l, l.foldl (fun a c => min a (f c)) m = f c := by
  induction l generalizing m with
  | nil => exact Or.inl rfl
  | cons c t ih =>
    rcases ih (min m (f c)) with h | ⟨d, hd, h⟩
    · rcases min_choice m (f c) with hm | hm
      · exact Or.inl (by rw [List.foldl_cons, h, hm])
      · exact Or.inr ⟨c, List.mem_cons_self c t, by rw [List.foldl_cons, h, hm]⟩
    · exact Or.inr ⟨d, List.mem_cons_of_mem c hd, by rw [List.foldl_cons, h]⟩

/-- C4: for a block whose per-cell crossing times do not exceed the
`realMax` reduction seed (valid primitives), `EstimateTimestep` returns
exactly CFL times the minimum over all interior cells of the per-cell
minimum over active dimensions of `Δx_d/(|v_d| + cs)`: the returned value
is `cfl` times one of the per-cell minima and is a lower bound of all of
them.  In particular on a single-cell 1D grid it equals
`cfl·Δx₁/(|v_x| + cs)` exactly. -/
theorem estimateTimestep_cfl_min (cfl : ℝ) (nx2 nx3 : Bool) (cs : PrimCell → ℝ)
    (cells : List TSCell) (hcfl : 0 ≤ cfl) (hne : cells ≠ [])
    (hb : ∀ c ∈ cells, hydroCellMinDt nx2 nx3 cs c ≤ realMax) :
    (∃ c ∈ cells,
        EstimateTimestep cfl nx2 nx3 cs cells = cfl * hydroCellMinDt nx2 nx3 cs c) ∧
    (∀ c ∈ cells,
        EstimateTimestep cfl nx2 nx3 cs cells ≤ cfl * hydroCellMinDt nx2 nx3 cs c) ∧
    (∀ c : TSCell, hydroCellMinDt false false cs c ≤ realMax →
        EstimateTimestep cfl false false cs [c] =
          cfl * (c.dx1 / (|c.w.vx| + cs c.w))) := by
  have hfold : ∀ (b2 b3 : Bool) (l : List TSCell) (m : ℝ),
      l.foldl (fun a c => hydroCellDtChain b2 b3 cs c a) m =
        l.foldl (fun a c => min a (hydroCellMinDt b2 b3 cs c)) m := by
    intro b2 b3 l
    induction l with
    | nil => intro m; rfl
    | cons c t ih =>
      intro m
      rw [List.foldl_cons, List.foldl_cons, hydroCellDtChain_eq_min, ih]
  refine ⟨?_, ?_, ?_⟩
  · rcases foldl_min_choice (hydroCellMinDt nx2 nx3 cs) cells realMax with h | ⟨c, hc, h⟩
    · rcases cells with _ | ⟨c0, t⟩
      · exact absurd rfl hne
      · refine ⟨c0, List.mem_cons_self c0 t, ?_⟩
        have hle := (foldl_min_le (hydroCellMinDt nx2 nx3 cs) (c0 :: t) realMax).2 c0
          (List.mem_cons_self c0 t)
        have hge := hb c0 (List.mem_cons_self c0 t)
        have : (c0 :: t).foldl (fun a c => min a (hydroCellMinDt nx2 nx3 cs c)) realMax =
            hydroCellMinDt nx2 nx3 cs c0 := le_antisymm hle (by rw [h]; exact hge)
        rw [EstimateTimestep, hfold, this]
    · exact ⟨c, hc, by rw [EstimateTimestep, hfold, h]⟩
  · intro c hc
    have := (foldl_min_le (hydroCellMinDt nx2 nx3 cs) cells realMax).2 c hc
    rw [EstimateTimestep, hfold]
    exact mul_le_mul_of_nonneg_left this hcfl
  · intro c hcb
    rw [EstimateTimestep]
    simp only [List.foldl_cons, List.foldl_nil, hydroCellDtChain_eq_min]
    rw [min_eq_right]
    · simp [hydroCellMinDt]
    · calc hydroCellMinDt false false cs c ≤ realMax := hcb
  -- the last calc rewrites `hydroCellMinDt false false` to the 1D bound

/-- Witness for C4 on a single-cell 1D grid with `ρ = p = 1`, `v = (3,0,0)`,
`Δx = 1` and constant sound speed 2: the estimate is `cfl·1/5`. -/
theorem estimateTimestep_cfl_min_witness :
    ((0 : ℝ) ≤ 1 ∧ ([(⟨⟨1, 3, 0, 0, 1⟩, 1, 1, 1⟩ : TSCell)] ≠ ([] : List TSCell)) ∧
      hydroCellMinDt false false (fun _ => 2) ⟨⟨1, 3, 0, 0, 1⟩, 1, 1, 1⟩ ≤ realMax) ∧
    EstimateTimestep 1 false false (fun _ => 2) [⟨⟨1, 3, 0, 0, 1⟩, 1, 1, 1⟩] =
      1 * ((1 : ℝ) / (|(3 : ℝ)| + 2)) := by
  have hb : hydroCellMinDt false false (fun _ => 2) ⟨⟨1, 3, 0, 0, 1⟩, 1, 1, 1⟩ ≤
      realMax := by
    simp only [hydroCellMinDt, realMax]
    norm_num
  refine ⟨⟨by norm_num, by simp, hb⟩, ?_⟩
  exact (estimateTimestep_cfl_min 1 false false (fun _ => 2)
    [⟨⟨1, 3, 0, 0, 1⟩, 1, 1, 1⟩] (by norm_num) (by simp)
    (by intro c hc; simp only [List.mem_singleton] at hc; rw [hc]; exact hb)).2.2
    ⟨⟨1, 3, 0, 0, 1⟩, 1, 1, 1⟩ hb

/-- C5: the flux of each interface is computed once and stored in the single
per-direction array `x1flux`; the flux-divergence update of an interior
cell decomposes into the contributions of its two interfaces drawn from
that same array, and each interface's contribution to the cell on its right
equals in magnitude and is opposite in sign to its contribution to the cell
on its left (discrete conservation law). -/
theorem flux_divergence_conservation (riemann : ℝ → ℝ → ℝ) (wl wr : ℤ → ℝ)
    (ib : IndexRange) (gam0 gam1 beta_dt dx : ℝ) (u0 u1 : ℤ → ℝ) (c m : ℤ)
    (hc : ib.s ≤ c ∧ c ≤ ib.e) :
    (updateWithFluxDivergence ib gam0 gam1 beta_dt dx u0 u1
        (x1flux riemann wl wr) c - (gam0 * u0 c + gam1 * u1 c) =
      interfaceFluxContrib beta_dt dx (x1flux riemann wl wr) c c +
        interfaceFluxContrib beta_dt dx (x1flux riemann wl wr) (c + 1) c) ∧
    (interfaceFluxContrib beta_dt dx (x1flux riemann wl wr) m m =
      -(interfaceFluxContrib beta_dt dx (x1flux riemann wl wr) m (m - 1))) := by
  constructor
  · rw [updateWithFluxDivergence, if_pos hc]
    rw [interfaceFluxContrib, if_pos rfl]
    rw [interfaceFluxContrib, if_neg (by omega), if_pos (by omega)]
    ring
  · rw [interfaceFluxContrib, if_pos rfl]
    rw [interfaceFluxContrib, if_neg (by omega), if_pos rfl]
    ring

/-- Witness for C5 at interface/cell index 0 of the range `[0, 0]`, with
zero states and a constant Riemann flux. -/
theorem flux_divergence_conservation_witness :
    (((⟨0, 0⟩ : IndexRange).s ≤ 0 ∧ (0 : ℤ) ≤ (⟨0, 0⟩ : IndexRange).e)) ∧
    (updateWithFluxDivergence ⟨0, 0⟩ 1 0 1 1 (fun _ => 0) (fun _ => 0)
        (x1flux (fun _ _ => 1) (fun _ => 0) (fun _ => 0)) 0 -
        (1 * (0 : ℝ) + 0 * 0) =
      interfaceFluxContrib 1 1 (x1flux (fun _ _ => 1) (fun _ => 0) (fun _ => 0)) 0 0 +
        interfaceFluxContrib 1 1 (x1flux (fun _ _ => 1) (fun _ => 0) (fun _ => 0)) 1 0) :=
  ⟨⟨le_refl 0, le_refl 0⟩,
    (flux_divergence_conservation (fun _ _ => 1) (fun _ => 0) (fun _ => 0) ⟨0, 0⟩
      1 0 1 1 (fun _ => 0) (fun _ => 0) 0 0 ⟨le_refl 0, le_refl 0⟩).1⟩

/-- C6: in the isotropic fixed-coefficient fast path, on every interior X1
interface the energy flux changes by exactly `-κ·⟨ρ⟩·dT/dx` with
`T = p/ρ`, `⟨ρ⟩` the adjacent-cell mean density and no limiter (and
analogously for X2 when `ndim ≥ 2` and X3 when `ndim ≥ 3`), while fluxes of
variables other than energy are never modified. -/
theorem thermalFluxIsoFixed_energy_only (td : ThermalDiffusivity) (ndim : ℕ)
    (dx : Dir → ℝ) (ib jb kb : IndexRange) (rho pres : Idx3 → ℝ)
    (flux : Dir → Var → Idx3 → ℝ) (k j i : ℤ) (v : Var) (d : Dir)
    (htd : td.conduction_coeff_type_ = ConductionCoeff.fixed) :
    ((kb.s ≤ k ∧ k ≤ kb.e ∧ jb.s ≤ j ∧ j ≤ jb.e ∧ ib.s ≤ i ∧ i ≤ ib.e + 1) →
      ThermalFluxIsoFixed td ndim dx ib jb kb rho pres flux Dir.X1 Var.IEN (k, j, i) =
        flux Dir.X1 Var.IEN (k, j, i) -
          td.coeff_ * (0.5 * (rho (k, j, i) + rho (k, j, i - 1))) *
            ((pres (k, j, i) / rho (k, j, i) -
              pres (k, j, i - 1) / rho (k, j, i - 1)) / dx Dir.X1)) ∧
    ((2 ≤ ndim ∧ kb.s ≤ k ∧ k ≤ kb.e ∧ jb.s ≤ j ∧ j ≤ jb.e + 1 ∧ ib.s ≤ i ∧ i ≤ ib.e) →
      ThermalFluxIsoFixed td ndim dx ib jb kb rho pres flux Dir.X2 Var.IEN (k, j, i) =
        flux Dir.X2 Var.IEN (k, j, i) -
          td.coeff_ * (0.5 * (rho (k, j, i) + rho (k, j - 1, i))) *
            ((pres (k, j, i) / rho (k, j, i) -
              pres (k, j - 1, i) / rho (k, j - 1, i)) / dx Dir.X2)) ∧
    ((3 ≤ ndim ∧ kb.s ≤ k ∧ k ≤ kb.e + 1 ∧ jb.s ≤ j ∧ j ≤ jb.e ∧ ib.s ≤ i ∧ i ≤ ib.e) →
      ThermalFluxIsoFixed td ndim dx ib jb kb rho pres flux Dir.X3 Var.IEN (k, j, i) =
        flux Dir.X3 Var.IEN (k, j, i) -
          td.coeff_ * (0.5 * (rho (k, j, i) + rho (k - 1, j, i))) *
            ((pres (k, j, i) / rho (k, j, i) -
              pres (k - 1, j, i) / rho (k - 1, j, i)) / dx Dir.X3)) ∧
    (v ≠ Var.IEN →
      ThermalFluxIsoFixed td ndim dx ib jb kb rho pres flux d v (k, j, i) =
        flux d v (k, j, i)) := by
  have hcoeff : td.Get 0 0 0 = td.coeff_ := by
    rw [ThermalDiffusivity.Get, if_pos htd]
  refine ⟨?_, ?_, ?_, ?_⟩
  · intro h
    simp only [ThermalFluxIsoFixed]
    rw [if_pos ⟨trivial, trivial, h.1, h.2.1, h.2.2.1, h.2.2.2.1, h.2.2.2.2.1,
      h.2.2.2.2.2⟩, hcoeff]
  · intro h
    simp only [ThermalFluxIsoFixed]
    rw [if_neg (by simp), if_pos ⟨h.1, trivial, trivial, h.2.1, h.2.2.1, h.2.2.2.1,
      h.2.2.2.2.1, h.2.2.2.2.2⟩, hcoeff]
  · intro h
    simp only [ThermalFluxIsoFixed]
    rw [if_neg (by simp), if_neg (by simp), if_pos ⟨h.1, trivial, trivial, h.2.1,
      h.2.2.1, h.2.2.2.1, h.2.2.2.2.1, h.2.2.2.2.2⟩, hcoeff]
  · intro hv
    simp only [ThermalFluxIsoFixed]
    rw [if_neg (by simp [hv]), if_neg (by simp [hv]), if_neg (by simp [hv])]

/-- Witness for C6 on a uniform unit state at the X1 interface `(0,0,0)` of
the single-cell range, with fixed coefficient 1: the energy flux picks up
the (zero) gradient term. -/
theorem thermalFluxIsoFixed_energy_only_witness :
    ((⟨Conduction.isotropic, ConductionCoeff.fixed, 1, 1⟩ :
        ThermalDiffusivity).conduction_coeff_type_ = ConductionCoeff.fixed) ∧
    ThermalFluxIsoFixed ⟨Conduction.isotropic, ConductionCoeff.fixed, 1, 1⟩ 1
        (fun _ => 1) ⟨0, 0⟩ ⟨0, 0⟩ ⟨0, 0⟩ (fun _ => 1) (fun _ => 1)
        (fun _ _ _ => 0) Dir.X1 Var.IEN (0, 0, 0) =
      (fun _ _ _ => (0 : ℝ)) Dir.X1 Var.IEN ((0 : ℤ), (0 : ℤ), (0 : ℤ)) -
        1 * (0.5 * ((fun _ => (1 : ℝ)) ((0 : ℤ), (0 : ℤ), (0 : ℤ)) +
          (fun _ => (1 : ℝ)) ((0 : ℤ), (0 : ℤ), (-1 : ℤ)))) *
          (((fun _ => (1 : ℝ)) ((0 : ℤ), (0 : ℤ), (0 : ℤ)) /
              (fun _ => (1 : ℝ)) ((0 : ℤ), (0 : ℤ), (0 : ℤ)) -
            (fun _ => (1 : ℝ)) ((0 : ℤ), (0 : ℤ), (-1 : ℤ)) /
              (fun _ => (1 : ℝ)) ((0 : ℤ), (0 : ℤ), (-1 : ℤ))) /
            (fun _ => (1 : ℝ)) Dir.X1) := by
  have h := (thermalFluxIsoFixed_energy_only
    ⟨Conduction.isotropic, ConductionCoeff.fixed, 1, 1⟩ 1 (fun _ => 1)
    ⟨0, 0⟩ ⟨0, 0⟩ ⟨0, 0⟩ (fun _ => 1) (fun _ => 1) (fun _ _ _ => 0) 0 0 0
    Var.IEN Dir.X1 rfl).1
  refine ⟨rfl, ?_⟩
  have h0 := h ⟨le_refl 0, le_refl 0, le_refl 0, le_refl 0, le_refl 0, by decide⟩
  simpa using h0

/-- C7: for every stage index, stage count and step `tau`, `RKL2Step` leaves
the `Y0` and `MY0` registers unchanged at every cell and variable; it
writes only `Yjm1` and `Yjm2`, where `Yjm2` receives the previous `Yjm1`
value (register shift) and `Yjm1` receives
`mu_j·Yjm1 + nu_j·Yjm2 + (1 - mu_j - nu_j)·Y0 + mu_tilde_j·tau·MYjm1 +
gamma_tilde_j·tau·MY0`. -/
theorem rkl2step_frame (jint : ℤ) (s tau dx : ℝ) (ib : IndexRange)
    (data : RegName → Var → ℤ → ℝ) (flux : RegName → Var → ℤ → ℝ)
    (v : Var) (i : ℤ) (h : ib.s ≤ i ∧ i ≤ ib.e) :
    RKL2Step jint s tau dx ib data flux RegName.Y0 v i = data RegName.Y0 v i ∧
    RKL2Step jint s tau dx ib data flux RegName.MY0 v i = data RegName.MY0 v i ∧
    RKL2Step jint s tau dx ib data flux RegName.Yjm2 v i = data RegName.Yjm1 v i ∧
    RKL2Step jint s tau dx ib data flux RegName.Yjm1 v i =
      rklMu jint * data RegName.Yjm1 v i + rklNu jint * data RegName.Yjm2 v i +
        (1 - rklMu jint - rklNu jint) * data RegName.Y0 v i +
        rklMuTilde jint s * tau * fluxDivHelper (flux RegName.Yjm1 v) dx i +
        rklGammaTilde jint s * tau * data RegName.MY0 v i := by
  refine ⟨?_, ?_, ?_, ?_⟩ <;>
    simp only [RKL2Step, if_pos h]

/-- Witness for C7 at stage `j = 2` of `s = 5` on the single-cell range
`[0, 0]` with constant register data. -/
theorem rkl2step_frame_witness :
    (((⟨0, 0⟩ : IndexRange).s ≤ 0 ∧ (0 : ℤ) ≤ (⟨0, 0⟩ : IndexRange).e)) ∧
    RKL2Step 2 5 1 1 ⟨0, 0⟩
        (fun r _ _ => match r with
          | RegName.Y0 => 1 | RegName.Yjm1 => 2 | RegName.Yjm2 => 3 | RegName.MY0 => 4)
        (fun _ _ _ => 0) RegName.Y0 Var.IDN 0 =
      (fun r (_ : Var) (_ : ℤ) => match r with
        | RegName.Y0 => (1 : ℝ) | RegName.Yjm1 => 2 | RegName.Yjm2 => 3
        | RegName.MY0 => 4) RegName.Y0 Var.IDN 0 :=
  ⟨⟨le_refl 0, le_refl 0⟩,
    (rkl2step_frame 2 5 1 1 ⟨0, 0⟩
      (fun r _ _ => match r with
        | RegName.Y0 => 1 | RegName.Yjm1 => 2 | RegName.Yjm2 => 3 | RegName.MY0 => 4)
      (fun _ _ _ => 0) Var.IDN 0 ⟨le_refl 0, le_refl 0⟩).1⟩

/-- C8: in the general-case conduction timestep estimate, a cell whose
centered temperature-gradient magnitude is exactly zero leaves the running
minimum unchanged, and under a non-isotropic (anisotropic) model a cell
whose magnetic-field magnitude is exactly zero likewise leaves it
unchanged; both degeneracies are ordinary early returns, not errors. -/
theorem estimateCondCellGeneral_degenerate_noop (td : ThermalDiffusivity)
    (ndim : ℕ) (dx : Dir → ℝ) (pres rho bfX bfY bfZ : Idx3 → ℝ) (k j i : ℤ)
    (min_dt : ℝ) :
    (vecMag (condDTdx pres rho (dx Dir.X1) k j i)
        (condDTdy ndim pres rho (dx Dir.X2) k j i)
        (condDTdz ndim pres rho (dx Dir.X3) k j i) = 0 →
      estimateCondCellGeneral td ndim dx pres rho bfX bfY bfZ k j i min_dt = min_dt) ∧
    (td.conduction_ = Conduction.anisotropic →
      vecMag (bfX (k, j, i)) (bfY (k, j, i)) (bfZ (k, j, i)) = 0 →
      estimateCondCellGeneral td ndim dx pres rho bfX bfY bfZ k j i min_dt = min_dt) := by
  constructor
  · intro hg
    simp only [estimateCondCellGeneral]
    rw [if_pos hg]
  · intro hty hb
    simp only [estimateCondCellGeneral]
    split
    · rfl
    · rw [if_neg (show ¬td.conduction_ = Conduction.isotropic from by
        rw [hty]; decide)]

/-- Witness for C8 on a uniform unit state with zero magnetic field in an
anisotropic configuration: the gradient magnitude is zero and the cell
leaves the running minimum (7) unchanged. -/
theorem estimateCondCellGeneral_degenerate_noop_witness :
    vecMag (condDTdx (fun _ => 1) (fun _ => 1) ((fun _ => (1 : ℝ)) Dir.X1) 0 0 0)
        (condDTdy 1 (fun _ => 1) (fun _ => 1) ((fun _ => (1 : ℝ)) Dir.X2) 0 0 0)
        (condDTdz 1 (fun _ => 1) (fun _ => 1) ((fun _ => (1 : ℝ)) Dir.X3) 0 0 0) = 0 ∧
    estimateCondCellGeneral ⟨Conduction.anisotropic, ConductionCoeff.fixed, 1, 1⟩ 1
        (fun _ => 1) (fun _ => 1) (fun _ => 1) (fun _ => 0) (fun _ => 0) (fun _ => 0)
        0 0 0 7 = 7 := by
  have hg : vecMag (condDTdx (fun _ => 1) (fun _ => 1) ((fun _ => (1 : ℝ)) Dir.X1) 0 0 0)
      (condDTdy 1 (fun _ => 1) (fun _ => 1) ((fun _ => (1 : ℝ)) Dir.X2) 0 0 0)
      (condDTdz 1 (fun _ => 1) (fun _ => 1) ((fun _ => (1 : ℝ)) Dir.X3) 0 0 0) = 0 := by
    simp only [condDTdx, condDTdy, condDTdz, vecMag]
    norm_num [Real.sqrt_zero]
  exact ⟨hg, (estimateCondCellGeneral_degenerate_noop
    ⟨Conduction.anisotropic, ConductionCoeff.fixed, 1, 1⟩ 1 (fun _ => 1) (fun _ => 1)
    (fun _ => 1) (fun _ => 0) (fun _ => 0) (fun _ => 0) 0 0 0 7).1 hg⟩

/-- Cauchy-Schwarz for three-component dot products, phrased with
`vecMag`. -/
theorem abs_dot_le_vecMag_mul (bX bY bZ tX tY tZ : ℝ) :
    |bX * tX + bY * tY + bZ * tZ| ≤ vecMag bX bY bZ * vecMag tX tY tZ := by
  have h1 : (bX * tX + bY * tY + bZ * tZ) ^ 2 ≤
      (bX ^ 2 + bY ^ 2 + bZ ^ 2) * (tX ^ 2 + tY ^ 2 + tZ ^ 2) := by
    nlinarith [sq_nonneg (bX * tY - bY * tX), sq_nonneg (bX * tZ - bZ * tX),
      sq_nonneg (bY * tZ - bZ * tY)]
  calc |bX * tX + bY * tY + bZ * tZ| =
      Real.sqrt ((bX * tX + bY * tY + bZ * tZ) ^ 2) := (Real.sqrt_sq_eq_abs _).symm
    _ ≤ Real.sqrt ((bX ^ 2 + bY ^ 2 + bZ ^ 2) * (tX ^ 2 + tY ^ 2 + tZ ^ 2)) :=
      Real.sqrt_le_sqrt h1
    _ = vecMag bX bY bZ * vecMag tX tY tZ := by
      rw [vecMag, vecMag, Real.sqrt_mul (by positivity)]

/-- Counterexample to C9 as stated: with `Δx = κ = 1`, field `B = (1, 1, 0)`
and temperature gradient `∇T = (1, 0, 0)` the code's X1 contribution is
`1/(1/2 + TINY_NUMBER)`, which differs from the claimed exact value
`Δx²/(κ·|B_x|/|B|·cosθ) = 2` and, being greater than `Δx²/κ = 1`, refutes
the claimed "at most the isotropic bound" inequality: the anisotropic
bound is looser, not tighter. -/
theorem anisoCondDt_counterexample :
    ¬(anisoCondDt 1 1 1 (vecMag 1 1 0) (condCosTheta 1 1 0 1 0 0) =
        1 ^ 2 / (1 * |(1 : ℝ)| / vecMag 1 1 0 * condCosTheta 1 1 0 1 0 0)) ∧
    ¬(anisoCondDt 1 1 1 (vecMag 1 1 0) (condCosTheta 1 1 0 1 0 0) ≤
        1 ^ 2 / 1) := by
  have hs2 : Real.sqrt 2 * Real.sqrt 2 = 2 := Real.mul_self_sqrt (by norm_num)
  have hspos : 0 < Real.sqrt 2 := Real.sqrt_pos.mpr (by norm_num)
  have hm : vecMag 1 1 0 = Real.sqrt 2 := by
    rw [vecMag]; norm_num
  have hg1 : vecMag 1 0 0 = 1 := by
    rw [vecMag]; norm_num
  have hct : condCosTheta 1 1 0 1 0 0 = 1 / Real.sqrt 2 := by
    rw [condCosTheta, hm, hg1]
    norm_num
  have hprod : 1 * |(1 : ℝ)| / vecMag 1 1 0 * condCosTheta 1 1 0 1 0 0 = 1 / 2 := by
    rw [hm, hct, abs_one]
    field_simp
  have hA : anisoCondDt 1 1 1 (vecMag 1 1 0) (condCosTheta 1 1 0 1 0 0) =
      1 ^ 2 / (1 / 2 + TINY_NUMBER) := by
    rw [anisoCondDt, hprod]
  constructor
  · rw [hA, hprod]
    norm_num [TINY_NUMBER]
  · rw [hA]
    norm_num [TINY_NUMBER]

/-- C9 (amended): the per-cell per-dimension anisotropic timestep
contribution equals `Δx²/(κ·|B_d|/|B|·cosθ + TINY_NUMBER)`; since the
field-alignment factor `|B_d|/|B|·cosθ` lies in `[0, 1]`, the denominator
is at most `κ + TINY_NUMBER`, so the anisotropic contribution is at least
(not at most) the guarded isotropic value `Δx²/(κ + TINY_NUMBER)`: the
anisotropic stability bound is looser than the isotropic one by the
field-alignment factor. -/
theorem anisoCondDt_looser_than_iso (dxd kappa bd bX bY bZ tX tY tZ : ℝ)
    (hk : 0 ≤ kappa) (hbd : |bd| ≤ vecMag bX bY bZ)
    (hb : 0 < vecMag bX bY bZ) (hg : 0 < vecMag tX tY tZ) :
    anisoCondDt dxd kappa bd (vecMag bX bY bZ) (condCosTheta bX bY bZ tX tY tZ) =
      dxd ^ 2 / (kappa * |bd| / vecMag bX bY bZ *
        condCosTheta bX bY bZ tX tY tZ + TINY_NUMBER) ∧
    kappa * |bd| / vecMag bX bY bZ * condCosTheta bX bY bZ tX tY tZ ≤ kappa ∧
    dxd ^ 2 / (kappa + TINY_NUMBER) ≤
      anisoCondDt dxd kappa bd (vecMag bX bY bZ) (condCosTheta bX bY bZ tX tY tZ) := by
  have hct0 : 0 ≤ condCosTheta bX bY bZ tX tY tZ :=
    div_nonneg (abs_nonneg _) (by positivity)
  have hct1 : condCosTheta bX bY bZ tX tY tZ ≤ 1 := by
    rw [condCosTheta]
    exact (div_le_one (by positivity)).mpr (abs_dot_le_vecMag_mul bX bY bZ tX tY tZ)
  have hfrac0 : 0 ≤ |bd| / vecMag bX bY bZ := div_nonneg (abs_nonneg _) hb.le
  have hfrac1 : |bd| / vecMag bX bY bZ ≤ 1 := (div_le_one hb).mpr hbd
  have hden0 : 0 ≤ kappa * |bd| / vecMag bX bY bZ * condCosTheta bX bY bZ tX tY tZ := by
    have : kappa * |bd| / vecMag bX bY bZ = kappa * (|bd| / vecMag bX bY bZ) := by
      ring
    rw [this]
    exact mul_nonneg (mul_nonneg hk hfrac0) hct0
  have hdenle : kappa * |bd| / vecMag bX bY bZ * condCosTheta bX bY bZ tX tY tZ ≤
      kappa := by
    have he : kappa * |bd| / vecMag bX bY bZ * condCosTheta bX bY bZ tX tY tZ =
        kappa * (|bd| / vecMag bX bY bZ) * condCosTheta bX bY bZ tX tY tZ := by
      ring
    rw [he]
    have h1 : kappa * (|bd| / vecMag bX bY bZ) * condCosTheta bX bY bZ tX tY tZ ≤
        kappa * (|bd| / vecMag bX bY bZ) * 1 :=
      mul_le_mul_of_nonneg_left hct1 (mul_nonneg hk hfrac0)
    have h2 : kappa * (|bd| / vecMag bX bY bZ) ≤ kappa * 1 :=
      mul_le_mul_of_nonneg_left hfrac1 hk
    calc kappa * (|bd| / vecMag bX bY bZ) * condCosTheta bX bY bZ tX tY tZ ≤
        kappa * (|bd| / vecMag bX bY bZ) * 1 := h1
      _ = kappa * (|bd| / vecMag bX bY bZ) := by ring
      _ ≤ kappa * 1 := h2
      _ = kappa := by ring
  have htiny : (0 : ℝ) < TINY_NUMBER := by norm_num [TINY_NUMBER]
  refine ⟨rfl, hdenle, ?_⟩
  rw [anisoCondDt]
  have hpos1 : 0 < kappa * |bd| / vecMag bX bY bZ *
      condCosTheta bX bY bZ tX tY tZ + TINY_NUMBER := by linarith
  exact div_le_div_of_nonneg_left (sq_nonneg dxd) hpos1 (by linarith)

/-- Witness for C9 (amended) at `Δx = κ = 1`, `B = ∇T = (1, 0, 0)`. -/
theorem anisoCondDt_looser_than_iso_witness :
    ((0 : ℝ) ≤ 1 ∧ |(1 : ℝ)| ≤ vecMag 1 0 0 ∧ (0 : ℝ) < vecMag 1 0 0) ∧
    1 ^ 2 / (1 + TINY_NUMBER) ≤
      anisoCondDt 1 1 1 (vecMag 1 0 0) (condCosTheta 1 0 0 1 0 0) := by
  have hg1 : vecMag 1 0 0 = 1 := by
    rw [vecMag]; norm_num
  refine ⟨⟨by norm_num, by rw [hg1]; norm_num, by rw [hg1]; norm_num⟩, ?_⟩
  exact (anisoCondDt_looser_than_iso 1 1 1 1 0 0 1 0 0 (by norm_num)
    (by rw [hg1]; norm_num) (by rw [hg1]; norm_num) (by rw [hg1]; norm_num)).2.2

end AthenaPK
